import Mathlib

/-!
Shallow embedding of the SocialConnect backend actor (src/src/backend/main.mo):
the friend-request state machine, follow graph, direct-message store, group
membership and WebRTC call-signaling subsystems, with theorems checking the
specification's claims about them.

Principals are modelled as natural numbers (opaque identities with decidable
equality).  The Motoko `Map` values are modelled as association lists with
update-in-place insertion (`mo:core/Map.add` replaces the value of an existing
key), or as Lean functions where the claims never enumerate the map.  A trap
(`Runtime.trap`) aborts the call and rolls back its effects, so a trapping
operation is modelled as returning `none`, and a trace step applies an
operation's result when it succeeds and keeps the state unchanged when it
traps.  Authorization guards (`AccessControl.hasPermission … #user`) apply
uniformly to every caller considered here, so they are not modelled.
`Time.now()` values are supplied as explicit parameters; on the Internet
Computer they are monotone non-decreasing across calls of one canister, which
is stated as an explicit hypothesis where a claim depends on it.
-/

namespace SocialConnect

abbrev Principal := Nat

/-- `RequestStatus` variant from main.mo. -/
inductive RequestStatus where
  | pending
  | accepted
  | declined
deriving DecidableEq, Repr

/-- Association-list lookup, the semantics of `mo:core/Map.get`. -/
def alookup {β : Type} : List (Principal × β) → Principal → Option β
  | [], _ => none
  | (k, v) :: rest, key => if key = k then some v else alookup rest key

/-- Association-list insertion, the semantics of `mo:core/Map.add`:
replace the value of an existing key, otherwise add the binding. -/
def ainsert {β : Type} : List (Principal × β) → Principal → β → List (Principal × β)
  | [], key, val => [(key, val)]
  | (k, v) :: rest, key, val =>
      if key = k then (k, val) :: rest else (k, v) :: ainsert rest key val

/-- The inner map of `friendRequests`: counterpart principal ↦ status. -/
abbrev FRInner := List (Principal × RequestStatus)

/-- The `friendRequests` store: `Map<Principal, Map<Principal, RequestStatus>>`. -/
abbrev FRState := List (Principal × FRInner)

/-- Status recorded under a ↦ b (the entry for `b` in `a`'s request map). -/
def statusOf (s : FRState) (a b : Principal) : Option RequestStatus :=
  (alookup s a).bind (fun inner => alookup inner b)

/-- `sendFriendRequest` (main.mo lines 462-483).  Traps on a self-request;
otherwise writes `#pending` under caller ↦ target and under target ↦ caller,
creating empty inner maps where missing. -/
def sendFriendRequest (caller target : Principal) (s : FRState) : Option FRState :=
  if target = caller then none
  else
    let userRequests := ainsert ((alookup s caller).getD []) target RequestStatus.pending
    let s1 := ainsert s caller userRequests
    let toRequests := ainsert ((alookup s1 target).getD []) caller RequestStatus.pending
    some (ainsert s1 target toRequests)

/-- `respondToFriendRequest` (main.mo lines 485-511).  Traps when the caller
has no request map, no entry for `fromUser`, or the entry is not `#pending`;
otherwise writes the answered status under caller ↦ fromUser and
fromUser ↦ caller.  (In main.mo the caller-side inner map is mutated in
place; re-inserting it under the caller's key is the functional equivalent.) -/
def respondToFriendRequest (caller fromUser : Principal) (accept : Bool) (s : FRState) :
    Option FRState :=
  match alookup s caller with
  | none => none
  | some requests =>
    match alookup requests fromUser with
    | none => none
    | some RequestStatus.pending =>
        let newStatus := if accept then RequestStatus.accepted else RequestStatus.declined
        let s1 := ainsert s caller (ainsert requests fromUser newStatus)
        let fromRequests := ainsert ((alookup s1 fromUser).getD []) caller newStatus
        some (ainsert s1 fromUser fromRequests)
    | some _ => none

/-- `getPendingFriendRequests` (main.mo lines 513-527): the entries of the
caller's request map whose status is `#pending`, each paired with the
query-time clock value (`Time.now()`). -/
def getPendingFriendRequests (caller : Principal) (now : Int) (s : FRState) :
    List (Principal × Int) :=
  (((alookup s caller).getD []).filter
      (fun e => decide (e.2 = RequestStatus.pending))).map (fun e => (e.1, now))

/-- An update operation on the friend-request store. -/
inductive FROp where
  | send (caller target : Principal)
  | respond (caller fromUser : Principal) (accept : Bool)

/-- One trace step: a trapping call rolls back, leaving the state unchanged. -/
def frStep (s : FRState) (op : FROp) : FRState :=
  match op with
  | .send c t => (sendFriendRequest c t s).getD s
  | .respond c f a => (respondToFriendRequest c f a s).getD s

/-- Run a sequence of friend-request operations from a state. -/
def frRun (ops : List FROp) (s : FRState) : FRState :=
  ops.foldl frStep s

/-- The initial `friendRequests` store: `Map.empty`. -/
def frInit : FRState := []

/-- The mirror property of a friend-request store. -/
def Mirror (s : FRState) : Prop :=
  ∀ a b, statusOf s a b = statusOf s b a

/-- All inner request maps have duplicate-free key lists (true of every real
`mo:core/Map`; proved below for every reachable `FRState`). -/
def InnerNodup (s : FRState) : Prop :=
  ∀ a inner, alookup s a = some inner → (inner.map Prod.fst).Nodup

/-- A set of principals, modelled membership-faithfully as a list
(`mo:core/Set.add` is idempotent, `Set.remove` deletes the element). -/
abbrev PSet := List Principal

/-- `mo:core/Set.add`. -/
def setAdd (l : PSet) (p : Principal) : PSet :=
  if p ∈ l then l else l ++ [p]

/-- `mo:core/Set.remove`. -/
def setRemove (l : PSet) (p : Principal) : PSet :=
  l.filter (fun q => decide (q ≠ p))

/-- The `followers` and `following` stores: `Map<Principal, Set<Principal>>`. -/
structure FollowState where
  followers : List (Principal × PSet)
  following : List (Principal × PSet)

/-- The observable follower set of `user`, as read by `getFollowers`
(main.mo lines 546-551): a missing entry reads as the empty set. -/
def followersOf (st : FollowState) (user : Principal) : PSet :=
  (alookup st.followers user).getD []

/-- The observable following set of `user`, as read by `getFollowing`
(main.mo lines 601-606). -/
def followingOf (st : FollowState) (user : Principal) : PSet :=
  (alookup st.following user).getD []

/-- `followUser` (main.mo lines 553-577).  Traps on self-follow; otherwise
adds the caller to the target's followers set and the target to the
caller's following set, in the same invocation. -/
def followUser (caller user : Principal) (st : FollowState) : Option FollowState :=
  if user = caller then none
  else
    let targetFollowers := setAdd ((alookup st.followers user).getD []) caller
    let st1 : FollowState :=
      { st with followers := ainsert st.followers user targetFollowers }
    let callerFollowing := setAdd ((alookup st1.following caller).getD []) user
    some { st1 with following := ainsert st1.following caller callerFollowing }

/-- `unfollowUser` (main.mo lines 579-599).  Never traps (beyond the
uniform authorization guard); removes the caller from the target's
followers set and the target from the caller's following set, each a
no-op when the set is absent. -/
def unfollowUser (caller user : Principal) (st : FollowState) : FollowState :=
  let newFollowers :=
    match alookup st.followers user with
    | some fs => ainsert st.followers user (setRemove fs caller)
    | none => st.followers
  let newFollowing :=
    match alookup st.following caller with
    | some fs => ainsert st.following caller (setRemove fs user)
    | none => st.following
  { followers := newFollowers, following := newFollowing }

/-- An update operation on the follow graph. -/
inductive FollowOp where
  | follow (caller user : Principal)
  | unfollow (caller user : Principal)

/-- One trace step on the follow graph. -/
def fStep (st : FollowState) (op : FollowOp) : FollowState :=
  match op with
  | .follow c u => (followUser c u st).getD st
  | .unfollow c u => unfollowUser c u st

/-- Run a sequence of follow-graph operations from a state. -/
def fRun (ops : List FollowOp) (st : FollowState) : FollowState :=
  ops.foldl fStep st

/-- The initial follow graph: both maps empty. -/
def fInit : FollowState := ⟨[], []⟩

/-- The follow-symmetry property of a follow graph. -/
def FollowSym (st : FollowState) : Prop :=
  ∀ a b, b ∈ followingOf st a ↔ a ∈ followersOf st b

/-- `DirectMessage` record from main.mo.  `Time.Time` is an integer
nanosecond count, modelled as `Int`. -/
structure DirectMessage where
  id : Nat
  senderId : Principal
  recipientId : Principal
  content : String
  timestamp : Int
  read : Bool
deriving DecidableEq, Repr

/-- The direct-messaging state: the `nextMessageId` counter and the
`directMessages` map.  The map is keyed by the monotonically assigned
message id and iterated in ascending key order, so it is modelled as the
list of messages in insertion order. -/
structure DMState where
  nextMessageId : Nat
  directMessages : List DirectMessage
deriving DecidableEq, Repr

/-- The initial messaging state. -/
def dmInit : DMState := ⟨0, []⟩

/-- `sendMessage` (main.mo lines 674-690): appends a fresh unread message
stamped with the current time and returns its id. -/
def sendMessage (caller recipientId : Principal) (content : String) (now : Int)
    (s : DMState) : DMState × Nat :=
  ({ nextMessageId := s.nextMessageId + 1,
     directMessages := s.directMessages ++
       [{ id := s.nextMessageId,
          senderId := caller,
          recipientId := recipientId,
          content := content,
          timestamp := now,
          read := false }] },
   s.nextMessageId)

/-- The filter predicate of `getConversation`. -/
def inConversation (caller otherUser : Principal) (m : DirectMessage) : Bool :=
  decide ((m.senderId = caller ∧ m.recipientId = otherUser) ∨
    (m.senderId = otherUser ∧ m.recipientId = caller))

/-- `getConversation` (main.mo lines 692-700): the messages whose
sender/recipient pair is {caller, otherUser}, in store order. -/
def getConversation (caller otherUser : Principal) (s : DMState) : List DirectMessage :=
  s.directMessages.filter (inConversation caller otherUser)

/-- The per-message update performed by `markConversationRead`. -/
def markRead1 (caller otherUser : Principal) (m : DirectMessage) : DirectMessage :=
  if m.senderId = otherUser ∧ m.recipientId = caller ∧ m.read = false then
    { m with read := true }
  else m

/-- `markConversationRead` (main.mo lines 717-726): sets `read := true` on
every message from `otherUser` to the caller that is still unread. -/
def markConversationRead (caller otherUser : Principal) (s : DMState) : DMState :=
  { s with directMessages := s.directMessages.map (markRead1 caller otherUser) }

/-- An update operation on the direct-message store, each `send` carrying
its `Time.now()` value. -/
inductive DMOp where
  | send (caller recipientId : Principal) (content : String) (now : Int)
  | markRead (caller otherUser : Principal)

/-- One trace step on the direct-message store. -/
def dmStep (s : DMState) (op : DMOp) : DMState :=
  match op with
  | .send c r txt t => (sendMessage c r txt t s).1
  | .markRead c o => markConversationRead c o s

/-- Run a sequence of messaging operations from a state. -/
def dmRun (ops : List DMOp) (s : DMState) : DMState :=
  ops.foldl dmStep s

/-- The `Time.now()` values of the `send` operations of a trace, in order. -/
def sendTimes : List DMOp → List Int
  | [] => []
  | DMOp.send _ _ _ t :: rest => t :: sendTimes rest
  | DMOp.markRead _ _ :: rest => sendTimes rest

/-- `Group` record from main.mo. -/
structure Group where
  id : Nat
  name : String
  creatorId : Principal
  memberIds : List Principal
  createdAt : Int
deriving DecidableEq, Repr

/-- The group store: the `nextGroupId` counter and the `groups` map. -/
structure GState where
  nextGroupId : Nat
  groups : Nat → Option Group

/-- The initial group store. -/
def gInit : GState := ⟨0, fun _ => none⟩

/-- `createGroup` (main.mo lines 742-757): allocates a fresh id and stores
a group whose sole member is the creator; returns the id. -/
def createGroup (caller : Principal) (name : String) (now : Int) (s : GState) :
    GState × Nat :=
  ({ nextGroupId := s.nextGroupId + 1,
     groups := fun gid =>
       if gid = s.nextGroupId then
         some { id := s.nextGroupId,
                name := name,
                creatorId := caller,
                memberIds := [caller],
                createdAt := now }
       else s.groups gid },
   s.nextGroupId)

/-- `addGroupMember` (main.mo lines 783-800): traps on a missing group, a
non-creator caller, or an already-present member; otherwise appends the
member. -/
def addGroupMember (caller : Principal) (groupId : Nat) (memberId : Principal)
    (s : GState) : Option GState :=
  match s.groups groupId with
  | none => none
  | some group =>
    if group.creatorId ≠ caller then none
    else if memberId ∈ group.memberIds then none
    else
      let groups2 : Nat → Option Group := fun gid =>
        if gid = groupId then some { group with memberIds := group.memberIds ++ [memberId] }
        else s.groups gid
      some { s with groups := groups2 }

/-- `removeGroupMember` (main.mo lines 802-816): traps on a missing group or
a non-creator caller; otherwise filters the member out of the member list
(with no membership or non-emptiness check). -/
def removeGroupMember (caller : Principal) (groupId : Nat) (memberId : Principal)
    (s : GState) : Option GState :=
  match s.groups groupId with
  | none => none
  | some group =>
    if group.creatorId ≠ caller then none
    else
      let groups2 : Nat → Option Group := fun gid =>
        if gid = groupId then
          some { group with memberIds := group.memberIds.filter (fun m => decide (m ≠ memberId)) }
        else s.groups gid
      some { s with groups := groups2 }

/-- An update operation on the group store. -/
inductive GOp where
  | create (caller : Principal) (name : String) (now : Int)
  | add (caller : Principal) (groupId : Nat) (memberId : Principal)
  | remove (caller : Principal) (groupId : Nat) (memberId : Principal)

/-- One trace step on the group store. -/
def gStep (s : GState) (op : GOp) : GState :=
  match op with
  | .create c n t => (createGroup c n t s).1
  | .add c g m => (addGroupMember c g m s).getD s
  | .remove c g m => (removeGroupMember c g m s).getD s

/-- Run a sequence of group operations from a state. -/
def gRun (ops : List GOp) (s : GState) : GState :=
  ops.foldl gStep s

/-- The group state reached by: principal 0 creates a group (id 0). -/
def gSolo : GState := gRun [GOp.create 0 "g" 0] gInit

/-- The group state reached by: principal 0 creates a group (id 0), then
adds principal 1 to it. -/
def gPair : GState := gRun [GOp.create 0 "h" 0, GOp.add 0 0 1] gInit

/-- `WebRTCOffer` record from main.mo. -/
structure WebRTCOffer where
  sdp : String
  caller : Principal
  callee : Principal
deriving DecidableEq, Repr

/-- `WebRTCAnswer` record from main.mo. -/
structure WebRTCAnswer where
  sdp : String
  callee : Principal
  caller : Principal
deriving DecidableEq, Repr

/-- `ICECandidate` record from main.mo. -/
structure ICECandidate where
  candidate : String
  tenant : Principal
deriving DecidableEq, Repr

/-- `VideoCall` record from main.mo. -/
structure VideoCall where
  offer : WebRTCOffer
  answer : Option WebRTCAnswer
  candidates : List ICECandidate
deriving DecidableEq, Repr

/-- The `videoCalls` store: `Map<Text, VideoCall>`, modelled as a function
(none of the claims enumerate it). -/
def VCState := String → Option VideoCall

/-- The initial call store. -/
def vcInit : VCState := fun _ => none

/-- `storeCallOffer` (main.mo lines 915-930): unconditionally stores a fresh
session under `callId` — overwriting any existing session — with the caller
as the offer's caller, no answer, and no candidates. -/
def storeCallOffer (caller : Principal) (callId sdp : String) (callee : Principal)
    (s : VCState) : VCState :=
  fun k =>
    if k = callId then
      some { offer := { sdp := sdp, caller := caller, callee := callee },
             answer := none,
             candidates := [] }
    else s k

/-- `getCallOffer` (main.mo lines 932-945): `none` models the trap on a
non-participant caller; a missing session reads as `some none` (null). -/
def getCallOffer (caller : Principal) (callId : String) (s : VCState) :
    Option (Option WebRTCOffer) :=
  match s callId with
  | none => some none
  | some call =>
    if call.offer.caller ≠ caller ∧ call.offer.callee ≠ caller then none
    else some (some call.offer)

/-- `storeCallAnswer` (main.mo lines 947-965): traps on a missing session or
when the caller is not the offer's callee; otherwise writes the answer,
keeping the rest of the session. -/
def storeCallAnswer (caller : Principal) (callId sdp : String) (s : VCState) :
    Option VCState :=
  match s callId with
  | none => none
  | some call =>
    if call.offer.callee ≠ caller then none
    else
      let ans : WebRTCAnswer := { sdp := sdp, callee := caller, caller := call.offer.caller }
      some (fun k => if k = callId then some { call with answer := some ans } else s k)

/-- `getCallAnswer` (main.mo lines 967-980). -/
def getCallAnswer (caller : Principal) (callId : String) (s : VCState) :
    Option (Option WebRTCAnswer) :=
  match s callId with
  | none => some none
  | some call =>
    if call.offer.caller ≠ caller ∧ call.offer.callee ≠ caller then none
    else some call.answer

/-- `addICECandidate` (main.mo lines 982-1000): traps on a missing session or
a non-participant caller; otherwise appends the candidate tagged with the
caller. -/
def addICECandidate (caller : Principal) (callId candidate : String) (s : VCState) :
    Option VCState :=
  match s callId with
  | none => none
  | some call =>
    if call.offer.caller ≠ caller ∧ call.offer.callee ≠ caller then none
    else
      let cand : ICECandidate := { candidate := candidate, tenant := caller }
      some (fun k =>
        if k = callId then some { call with candidates := call.candidates ++ [cand] }
        else s k)

/-- `getICECandidates` (main.mo lines 1002-1015): a missing session reads as
the empty list; a non-participant caller traps; otherwise the candidates
contributed by `forPrincipal`. -/
def getICECandidates (caller : Principal) (callId : String) (forPrincipal : Principal)
    (s : VCState) : Option (List String) :=
  match s callId with
  | none => some []
  | some call =>
    if call.offer.caller ≠ caller ∧ call.offer.callee ≠ caller then none
    else some ((call.candidates.filter
      (fun c => decide (c.tenant = forPrincipal))).map (fun c => c.candidate))

/-- `endCall` (main.mo lines 1017-1030): traps on a missing session or a
non-participant caller; otherwise removes the session. -/
def endCall (caller : Principal) (callId : String) (s : VCState) : Option VCState :=
  match s callId with
  | none => none
  | some call =>
    if call.offer.caller ≠ caller ∧ call.offer.callee ≠ caller then none
    else some (fun k => if k = callId then none else s k)

/-- The call store reached by: principal 0 stores an offer for callee 1
under call id "c1". -/
def vcSession : VCState := storeCallOffer 0 "c1" "offerA" 1 vcInit

/-- Timestamp (non-strict) ordering on direct messages. -/
def tsLe (m1 m2 : DirectMessage) : Prop :=
  m1.timestamp ≤ m2.timestamp

/-- A concrete messaging trace: 0 messages 1 at time 5, then 1 replies at
time 7 (non-decreasing clock). -/
def c2ops : List DMOp :=
  [DMOp.send 0 1 "hi" 5, DMOp.send 1 0 "yo" 7]

/-- The first message of the `c2ops` trace. -/
def c2msg : DirectMessage :=
  { id := 0, senderId := 0, recipientId := 1, content := "hi", timestamp := 5, read := false }

/-- A concrete messaging state: one unread message from 1 to 0. -/
def c9state : DMState := (sendMessage 1 0 "hello" 3 dmInit).1

/-- The single message of `c9state`. -/
def c9msg : DirectMessage :=
  { id := 0, senderId := 1, recipientId := 0, content := "hello", timestamp := 3, read := false }

/-- The group stored in `gSolo` under id 0. -/
def gSoloGroup : Group :=
  { id := 0, name := "g", creatorId := 0, memberIds := [0], createdAt := 0 }

/-- The group stored in `gPair` under id 0. -/
def gPairGroup : Group :=
  { id := 0, name := "h", creatorId := 0, memberIds := [0, 1], createdAt := 0 }

/-- The session stored in `vcSession` under call id "c1". -/
def vcCall1 : VideoCall :=
  { offer := { sdp := "offerA", caller := 0, callee := 1 },
    answer := none,
    candidates := [] }

/-! ### Association-map lemmas -/

theorem alookup_ainsert {β : Type} (m : List (Principal × β)) (k k' : Principal) (v : β) :
    alookup (ainsert m k v) k' = if k' = k then some v else alookup m k' := by
  induction m with
  | nil => simp [ainsert, alookup]
  | cons hd tl ih =>
    obtain ⟨a, b⟩ := hd
    simp only [ainsert]
    by_cases hka : k = a
    · subst hka
      simp only [if_pos rfl]
      by_cases h : k' = k <;> simp [alookup, h]
    · simp only [if_neg hka, alookup, ih]
      by_cases h : k' = a
      · subst h
        have hkk : ¬ k' = k := fun hh => hka hh.symm
        simp [hkk]
      · simp [h]

theorem alookup_getD (s : FRState) (a b : Principal) :
    alookup ((alookup s a).getD []) b = statusOf s a b := by
  unfold statusOf
  cases alookup s a <;> simp [alookup]

theorem statusOf_ainsert (s : FRState) (k : Principal) (inner : FRInner) (a b : Principal) :
    statusOf (ainsert s k inner) a b = if a = k then alookup inner b else statusOf s a b := by
  unfold statusOf
  rw [alookup_ainsert]
  by_cases h : a = k <;> simp [h]

/-! ### C1: the friend-request mirror invariant -/

/-- Effect of a successful `sendFriendRequest` on the stored statuses: both
directed entries of the pair become `#pending`; everything else is
untouched. -/
theorem statusOf_send {c t : Principal} {s s' : FRState}
    (h : sendFriendRequest c t s = some s') (a b : Principal) :
    statusOf s' a b =
      if (a = c ∧ b = t) ∨ (a = t ∧ b = c) then some RequestStatus.pending
      else statusOf s a b := by
  unfold sendFriendRequest at h
  by_cases hct : t = c
  · simp [hct] at h
  · rw [if_neg hct] at h
    simp only [Option.some.injEq] at h
    subst h
    simp only [statusOf_ainsert, alookup_ainsert, alookup_getD, hct, if_false, ite_false,
      eq_self_iff_true, if_true]
    split_ifs <;> simp_all

/-- Effect of a successful `respondToFriendRequest` on the stored statuses:
both directed entries of the pair become the answered status; everything
else is untouched. -/
theorem statusOf_respond {c f : Principal} {acc : Bool} {s s' : FRState}
    (h : respondToFriendRequest c f acc s = some s') (a b : Principal) :
    statusOf s' a b =
      if (a = c ∧ b = f) ∨ (a = f ∧ b = c) then
        some (if acc then RequestStatus.accepted else RequestStatus.declined)
      else statusOf s a b := by
  unfold respondToFriendRequest at h
  split at h
  · simp at h
  · rename_i requests hreq
    split at h
    · simp at h
    · rename_i hst
      simp only [Option.some.injEq] at h
      subst h
      have hcb : ∀ x, alookup requests x = statusOf s c x := by
        intro x
        simp [statusOf, hreq]
      by_cases hfc : f = c
      · subst hfc
        simp only [statusOf_ainsert, alookup_ainsert, alookup_getD, hcb, eq_self_iff_true,
          if_true]
        split_ifs <;> simp_all [statusOf_ainsert, alookup_ainsert, alookup_getD]
      · simp only [statusOf_ainsert, alookup_ainsert, alookup_getD, hcb, hfc, if_false,
          ite_false]
        split_ifs <;> simp_all [statusOf_ainsert, alookup_ainsert, alookup_getD]
    · simp at h

theorem Mirror.send {c t : Principal} {s s' : FRState}
    (hm : Mirror s) (h : sendFriendRequest c t s = some s') : Mirror s' := by
  intro a b
  rw [statusOf_send h a b, statusOf_send h b a]
  by_cases hcond : (a = c ∧ b = t) ∨ (a = t ∧ b = c)
  · rw [if_pos hcond, if_pos (by tauto)]
  · rw [if_neg hcond, if_neg (by tauto), hm a b]

theorem Mirror.respond {c f : Principal} {acc : Bool} {s s' : FRState}
    (hm : Mirror s) (h : respondToFriendRequest c f acc s = some s') : Mirror s' := by
  intro a b
  rw [statusOf_respond h a b, statusOf_respond h b a]
  by_cases hcond : (a = c ∧ b = f) ∨ (a = f ∧ b = c)
  · have hcond2 : (b = c ∧ a = f) ∨ (b = f ∧ a = c) := by tauto
    rw [if_pos hcond, if_pos hcond2]
  · have hcond2 : ¬ ((b = c ∧ a = f) ∨ (b = f ∧ a = c)) := by tauto
    rw [if_neg hcond, if_neg hcond2, hm a b]

theorem Mirror.step {s : FRState} (hm : Mirror s) (op : FROp) : Mirror (frStep s op) := by
  cases op with
  | send c t =>
    cases h : sendFriendRequest c t s with
    | none => simpa [frStep, h] using hm
    | some s2 => simpa [frStep, h] using Mirror.send hm h
  | respond c f acc =>
    cases h : respondToFriendRequest c f acc s with
    | none => simpa [frStep, h] using hm
    | some s2 => simpa [frStep, h] using Mirror.respond hm h

theorem mirror_run (ops : List FROp) (s : FRState) (hm : Mirror s) :
    Mirror (frRun ops s) := by
  induction ops generalizing s with
  | nil => simpa [frRun] using hm
  | cons op rest ih =>
    simp only [frRun, List.foldl_cons]
    exact ih (frStep s op) (Mirror.step hm op)

/-- C1: Mirror invariant of the friend-request state: for all identities A
and B, after any sequence of successful `sendFriendRequest` and
`respondToFriendRequest` operations, the status stored in A's request map
under key B equals the status stored in B's request map under key A (both
pending, both accepted, both declined, or absent on both sides). -/
theorem c1_friend_request_mirror (ops : List FROp) (a b : Principal) :
    statusOf (frRun ops frInit) a b = statusOf (frRun ops frInit) b a :=
  mirror_run ops frInit (fun _ _ => rfl) a b

/-! ### C6: what `getPendingFriendRequests` returns -/

theorem mem_keys_ainsert {β : Type} (m : List (Principal × β)) (k x : Principal) (v : β) :
    x ∈ (ainsert m k v).map Prod.fst → x = k ∨ x ∈ m.map Prod.fst := by
  induction m with
  | nil => simp [ainsert]
  | cons hd tl ih =>
    obtain ⟨a, b⟩ := hd
    simp only [ainsert]
    by_cases h : k = a
    · subst h
      simp only [eq_self_iff_true, if_true, List.map_cons, List.mem_cons]
      tauto
    · simp only [if_neg h, List.map_cons, List.mem_cons]
      rintro (rfl | hx)
      · right; left; rfl
      · rcases ih hx with h1 | h2
        · left; exact h1
        · right; right; exact h2

theorem nodup_keys_ainsert {β : Type} (m : List (Principal × β)) (k : Principal) (v : β)
    (h : (m.map Prod.fst).Nodup) : ((ainsert m k v).map Prod.fst).Nodup := by
  induction m with
  | nil => simp [ainsert]
  | cons hd tl ih =>
    obtain ⟨a, b⟩ := hd
    simp only [List.map_cons, List.nodup_cons] at h
    obtain ⟨ha, htl⟩ := h
    simp only [ainsert]
    by_cases hk : k = a
    · subst hk
      simp only [eq_self_iff_true, if_true, List.map_cons, List.nodup_cons]
      exact ⟨ha, htl⟩
    · simp only [if_neg hk, List.map_cons, List.nodup_cons]
      refine ⟨?_, ih htl⟩
      intro hmem
      rcases mem_keys_ainsert tl k a v hmem with h1 | h2
      · exact hk h1.symm
      · exact ha h2

theorem mem_of_alookup {β : Type} {m : List (Principal × β)} {k : Principal} {v : β}
    (h : alookup m k = some v) : (k, v) ∈ m := by
  induction m with
  | nil => simp [alookup] at h
  | cons hd tl ih =>
    obtain ⟨a, b⟩ := hd
    simp only [alookup] at h
    by_cases hk : k = a
    · subst hk
      rw [if_pos rfl] at h
      injection h with h
      subst h
      exact List.mem_cons_self _ _
    · rw [if_neg hk] at h
      exact List.mem_cons_of_mem _ (ih h)

theorem alookup_eq_of_mem {β : Type} {m : List (Principal × β)} {k : Principal} {v : β}
    (hnd : (m.map Prod.fst).Nodup) (h : (k, v) ∈ m) : alookup m k = some v := by
  induction m with
  | nil => simp at h
  | cons hd tl ih =>
    obtain ⟨a, b⟩ := hd
    simp only [List.map_cons, List.nodup_cons] at hnd
    obtain ⟨ha, htl⟩ := hnd
    rcases List.mem_cons.mp h with heq | hmem
    · injection heq with h1 h2
      subst h1
      subst h2
      simp [alookup]
    · have hka : ¬ k = a := by
        intro hk
        subst hk
        exact ha (List.mem_map.mpr ⟨(k, v), hmem, rfl⟩)
      simp only [alookup, if_neg hka]
      exact ih htl hmem

theorem getD_keys_nodup {s : FRState} (hnd : InnerNodup s) (a : Principal) :
    (((alookup s a).getD []).map Prod.fst).Nodup := by
  cases hh : alookup s a with
  | none => simp
  | some inner => simpa using hnd a inner hh

theorem InnerNodup.ainsertInner {s : FRState} {k : Principal} {inner : FRInner}
    (hs : InnerNodup s) (hi : (inner.map Prod.fst).Nodup) :
    InnerNodup (ainsert s k inner) := by
  intro a i h
  rw [alookup_ainsert] at h
  by_cases hak : a = k
  · rw [if_pos hak] at h
    injection h with h
    subst h
    exact hi
  · rw [if_neg hak] at h
    exact hs a i h

theorem innerNodup_send {c t : Principal} {s s2 : FRState} (hs : InnerNodup s)
    (h : sendFriendRequest c t s = some s2) : InnerNodup s2 := by
  unfold sendFriendRequest at h
  by_cases hct : t = c
  · simp [hct] at h
  · rw [if_neg hct] at h
    simp only [Option.some.injEq] at h
    subst h
    have hs1 : InnerNodup
        (ainsert s c (ainsert ((alookup s c).getD []) t RequestStatus.pending)) :=
      InnerNodup.ainsertInner hs (nodup_keys_ainsert _ _ _ (getD_keys_nodup hs c))
    exact InnerNodup.ainsertInner hs1 (nodup_keys_ainsert _ _ _ (getD_keys_nodup hs1 t))

theorem innerNodup_respond {c f : Principal} {acc : Bool} {s s2 : FRState}
    (hs : InnerNodup s) (h : respondToFriendRequest c f acc s = some s2) :
    InnerNodup s2 := by
  unfold respondToFriendRequest at h
  split at h
  · simp at h
  · rename_i requests hreq
    split at h
    · simp at h
    · rename_i hst
      simp only [Option.some.injEq] at h
      subst h
      have hs1 : InnerNodup (ainsert s c (ainsert requests f
          (if acc then RequestStatus.accepted else RequestStatus.declined))) :=
        InnerNodup.ainsertInner hs (nodup_keys_ainsert _ _ _ (hs c requests hreq))
      exact InnerNodup.ainsertInner hs1 (nodup_keys_ainsert _ _ _ (getD_keys_nodup hs1 f))
    · simp at h

theorem innerNodup_step {s : FRState} (hs : InnerNodup s) (op : FROp) :
    InnerNodup (frStep s op) := by
  cases op with
  | send c t =>
    cases h : sendFriendRequest c t s with
    | none => simpa [frStep, h] using hs
    | some s2 => simpa [frStep, h] using innerNodup_send hs h
  | respond c f acc =>
    cases h : respondToFriendRequest c f acc s with
    | none => simpa [frStep, h] using hs
    | some s2 => simpa [frStep, h] using innerNodup_respond hs h

theorem innerNodup_run (ops : List FROp) (s : FRState) (hs : InnerNodup s) :
    InnerNodup (frRun ops s) := by
  induction ops generalizing s with
  | nil => simpa [frRun] using hs
  | cons op rest ih =>
    simp only [frRun, List.foldl_cons]
    exact ih (frStep s op) (innerNodup_step hs op)

/-- C6 counterexample: principal 0 sends the only friend request of the trace
(to principal 1); the request is still pending and was sent BY the caller,
there is no incoming request directed at 0 — yet `getPendingFriendRequests`
invoked by 0 returns it.  This refutes the claim that the result holds
exactly the pending incoming requests and no still-pending request the
caller themself sent. -/
theorem c6_counterexample :
    getPendingFriendRequests 0 7 (frRun [FROp.send 0 1] frInit) = [(1, 7)] ∧
    statusOf (frRun [FROp.send 0 1] frInit) 0 1 = some RequestStatus.pending := by
  constructor <;> rfl

/-- C6 amended: in every reachable friend-request store,
`getPendingFriendRequests` returns exactly the entries of the caller's own
request map whose status is `#pending` (paired with the query-time clock).
Since `sendFriendRequest` records `#pending` symmetrically on both sides,
this comprises both incoming and outgoing pending requests; the store does
not record direction, so requests the caller themself sent and that are
still pending are included. -/
theorem c6_pending_requests_membership (ops : List FROp) (caller p : Principal)
    (now t : Int) :
    (p, t) ∈ getPendingFriendRequests caller now (frRun ops frInit) ↔
      statusOf (frRun ops frInit) caller p = some RequestStatus.pending ∧ t = now := by
  have hnd : InnerNodup (frRun ops frInit) :=
    innerNodup_run ops frInit (fun a inner h => by simp [alookup] at h)
  unfold getPendingFriendRequests
  rw [← alookup_getD]
  constructor
  · intro hmem
    rcases List.mem_map.mp hmem with ⟨e, hef, heq⟩
    rcases List.mem_filter.mp hef with ⟨hei, hep⟩
    obtain ⟨p0, st⟩ := e
    simp only [decide_eq_true_eq] at hep
    subst hep
    injection heq with h1 h2
    subst h1
    exact ⟨alookup_eq_of_mem (getD_keys_nodup hnd caller) hei, h2.symm⟩
  · rintro ⟨hstat, rfl⟩
    refine List.mem_map.mpr ⟨(p, RequestStatus.pending), ?_, rfl⟩
    exact List.mem_filter.mpr ⟨mem_of_alookup hstat, by simp⟩

/-! ### C7: follow symmetry -/

theorem mem_setAdd (l : PSet) (p x : Principal) : x ∈ setAdd l p ↔ x ∈ l ∨ x = p := by
  unfold setAdd
  by_cases h : p ∈ l
  · rw [if_pos h]
    constructor
    · exact Or.inl
    · rintro (hx | rfl)
      · exact hx
      · exact h
  · rw [if_neg h]
    simp

theorem mem_setRemove (l : PSet) (p x : Principal) : x ∈ setRemove l p ↔ x ∈ l ∧ x ≠ p := by
  simp [setRemove, List.mem_filter]

theorem getD_ainsert {β : Type} (m : List (Principal × β)) (k a : Principal) (v d : β) :
    (alookup (ainsert m k v) a).getD d = if a = k then v else (alookup m a).getD d := by
  rw [alookup_ainsert]
  by_cases h : a = k <;> simp [h]

theorem followUser_parts {c u : Principal} {st st2 : FollowState}
    (h : followUser c u st = some st2) :
    st2.followers = ainsert st.followers u (setAdd ((alookup st.followers u).getD []) c) ∧
    st2.following = ainsert st.following c (setAdd ((alookup st.following c).getD []) u) := by
  unfold followUser at h
  by_cases huc : u = c
  · simp [huc] at h
  · rw [if_neg huc] at h
    simp only [Option.some.injEq] at h
    subst h
    exact ⟨rfl, rfl⟩

theorem followersOf_follow {c u : Principal} {st st2 : FollowState}
    (h : followUser c u st = some st2) (b : Principal) :
    followersOf st2 b =
      if b = u then setAdd (followersOf st u) c else followersOf st b := by
  unfold followersOf
  rw [(followUser_parts h).1, getD_ainsert]

theorem followingOf_follow {c u : Principal} {st st2 : FollowState}
    (h : followUser c u st = some st2) (a : Principal) :
    followingOf st2 a =
      if a = c then setAdd (followingOf st c) u else followingOf st a := by
  unfold followingOf
  rw [(followUser_parts h).2, getD_ainsert]

theorem followersOf_unfollow (c u : Principal) (st : FollowState) (b : Principal) :
    followersOf (unfollowUser c u st) b =
      if b = u then setRemove (followersOf st u) c else followersOf st b := by
  have hf : (unfollowUser c u st).followers =
      match alookup st.followers u with
      | some fs => ainsert st.followers u (setRemove fs c)
      | none => st.followers := rfl
  unfold followersOf
  rw [hf]
  cases h1 : alookup st.followers u with
  | none =>
    by_cases hbu : b = u
    · subst hbu
      simp [h1, setRemove]
    · simp [hbu]
  | some fs =>
    rw [getD_ainsert]
    simp

theorem followingOf_unfollow (c u : Principal) (st : FollowState) (a : Principal) :
    followingOf (unfollowUser c u st) a =
      if a = c then setRemove (followingOf st c) u else followingOf st a := by
  have hf : (unfollowUser c u st).following =
      match alookup st.following c with
      | some fs => ainsert st.following c (setRemove fs u)
      | none => st.following := rfl
  unfold followingOf
  rw [hf]
  cases h1 : alookup st.following c with
  | none =>
    by_cases hac : a = c
    · subst hac
      simp [h1, setRemove]
    · simp [hac]
  | some fs =>
    rw [getD_ainsert]
    simp

theorem followSym_step {st : FollowState} (hs : FollowSym st) (op : FollowOp) :
    FollowSym (fStep st op) := by
  cases op with
  | follow c u =>
    cases h : followUser c u st with
    | none => simpa [fStep, h] using hs
    | some st2 =>
      have hstep : fStep st (FollowOp.follow c u) = st2 := by simp [fStep, h]
      rw [hstep]
      intro a b
      rw [followingOf_follow h, followersOf_follow h]
      by_cases hac : a = c
      · subst hac
        by_cases hbu : b = u
        · subst hbu
          simp [mem_setAdd]
        · simp [mem_setAdd, hbu, hs a b]
      · by_cases hbu : b = u
        · subst hbu
          simp [mem_setAdd, hac, hs a b]
        · simp [hac, hbu, hs a b]
  | unfollow c u =>
    have hstep : fStep st (FollowOp.unfollow c u) = unfollowUser c u st := rfl
    rw [hstep]
    intro a b
    rw [followingOf_unfollow, followersOf_unfollow]
    by_cases hac : a = c
    · subst hac
      by_cases hbu : b = u
      · subst hbu
        simp [mem_setRemove]
      · simp [mem_setRemove, hbu, hs a b]
    · by_cases hbu : b = u
      · subst hbu
        simp [mem_setRemove, hac, hs a b]
      · simp [hac, hbu, hs a b]

theorem followSym_run (ops : List FollowOp) (st : FollowState) (hs : FollowSym st) :
    FollowSym (fRun ops st) := by
  induction ops generalizing st with
  | nil => simpa [fRun] using hs
  | cons op rest ih =>
    simp only [fRun, List.foldl_cons]
    exact ih (fStep st op) (followSym_step hs op)

/-- C7: Follow symmetry invariant: for all identities A and B and every
state reachable by sequences of `followUser` and `unfollowUser`, B is in
A's following set if and only if A is in B's followers set; each operation
updates both sets within the same invocation, so no observable state
violates the equivalence. -/
theorem c7_follow_symmetry (ops : List FollowOp) (a b : Principal) :
    b ∈ followingOf (fRun ops fInit) a ↔ a ∈ followersOf (fRun ops fInit) b :=
  followSym_run ops fInit
    (fun x y => by simp [followingOf, followersOf, fInit, alookup]) a b

/-! ### C2: conversation projection -/

theorem mem_getConversation (caller otherUser : Principal) (s : DMState)
    (m : DirectMessage) :
    m ∈ getConversation caller otherUser s ↔
      m ∈ s.directMessages ∧
        ((m.senderId = caller ∧ m.recipientId = otherUser) ∨
         (m.senderId = otherUser ∧ m.recipientId = caller)) := by
  simp [getConversation, List.mem_filter, inConversation]

theorem markRead1_timestamp (c o : Principal) (m : DirectMessage) :
    (markRead1 c o m).timestamp = m.timestamp := by
  unfold markRead1
  split <;> rfl

theorem dmRun_sorted (ops : List DMOp) (s : DMState)
    (h1 : s.directMessages.Pairwise tsLe)
    (h2 : ∀ m ∈ s.directMessages, ∀ t ∈ sendTimes ops, m.timestamp ≤ t)
    (h3 : (sendTimes ops).Pairwise (fun t1 t2 => t1 ≤ t2)) :
    (dmRun ops s).directMessages.Pairwise tsLe := by
  induction ops generalizing s with
  | nil => simpa [dmRun] using h1
  | cons op rest ih =>
    simp only [dmRun, List.foldl_cons]
    cases op with
    | send c r txt t =>
      rw [show sendTimes (DMOp.send c r txt t :: rest) = t :: sendTimes rest from rfl]
        at h2 h3
      rw [List.pairwise_cons] at h3
      obtain ⟨htall, h3r⟩ := h3
      apply ih
      · show ((dmStep s (DMOp.send c r txt t)).directMessages).Pairwise tsLe
        simp only [dmStep, sendMessage]
        rw [List.pairwise_append]
        refine ⟨h1, by simp, ?_⟩
        intro m hm m2 hm2
        simp only [List.mem_singleton] at hm2
        subst hm2
        exact h2 m hm t (by simp)
      · intro m hm t2 ht2
        simp only [dmStep, sendMessage] at hm
        rcases List.mem_append.mp hm with hold | hnew
        · exact h2 m hold t2 (by simp [ht2])
        · simp only [List.mem_singleton] at hnew
          subst hnew
          exact htall t2 ht2
      · exact h3r
    | markRead c o =>
      apply ih
      · show ((dmStep s (DMOp.markRead c o)).directMessages).Pairwise tsLe
        simp only [dmStep, markConversationRead]
        rw [List.pairwise_map]
        apply h1.imp
        intro m1 m2 h12
        simpa [tsLe, markRead1_timestamp] using h12
      · intro m hm t2 ht2
        simp only [dmStep, markConversationRead] at hm
        rcases List.mem_map.mp hm with ⟨m0, hm0, rfl⟩
        rw [markRead1_timestamp]
        exact h2 m0 hm0 t2 ht2
      · exact h3

/-- C2: For every caller A and identity B, `getConversation(B)` invoked by A
returns exactly the direct messages whose unordered sender/recipient pair is
{A, B}, and the returned list is sorted ascending (non-strictly) by
timestamp — in every state reachable by a trace whose `Time.now()` values
are non-decreasing, as the Internet Computer guarantees for a canister's
clock. -/
theorem c2_conversation_exact_and_sorted (ops : List DMOp) (a b : Principal)
    (m : DirectMessage) (hmono : (sendTimes ops).Pairwise (fun t1 t2 => t1 ≤ t2)) :
    (m ∈ getConversation a b (dmRun ops dmInit) ↔
      m ∈ (dmRun ops dmInit).directMessages ∧
        ((m.senderId = a ∧ m.recipientId = b) ∨
         (m.senderId = b ∧ m.recipientId = a))) ∧
    (getConversation a b (dmRun ops dmInit)).Pairwise tsLe := by
  constructor
  · exact mem_getConversation a b _ m
  · have hall : (dmRun ops dmInit).directMessages.Pairwise tsLe :=
      dmRun_sorted ops dmInit (by simp [dmInit]) (by simp [dmInit]) hmono
    exact List.Pairwise.sublist (List.filter_sublist _) hall

/-- Witness for C2 at the concrete trace `c2ops` and its first message. -/
theorem c2_witness :
    (sendTimes c2ops).Pairwise (fun t1 t2 => t1 ≤ t2) ∧
    ((c2msg ∈ getConversation 0 1 (dmRun c2ops dmInit) ↔
      c2msg ∈ (dmRun c2ops dmInit).directMessages ∧
        ((c2msg.senderId = 0 ∧ c2msg.recipientId = 1) ∨
         (c2msg.senderId = 1 ∧ c2msg.recipientId = 0))) ∧
    (getConversation 0 1 (dmRun c2ops dmInit)).Pairwise tsLe) := by
  have hp : (sendTimes c2ops).Pairwise (fun t1 t2 => t1 ≤ t2) := by decide
  exact ⟨hp, c2_conversation_exact_and_sorted c2ops 0 1 c2msg hp⟩

/-! ### C9: idempotence of `markConversationRead` -/

theorem markRead1_idem (c o : Principal) (m : DirectMessage) :
    markRead1 c o (markRead1 c o m) = markRead1 c o m := by
  unfold markRead1
  by_cases hcond : m.senderId = o ∧ m.recipientId = c ∧ m.read = false
  · rw [if_pos hcond]
    simp
  · rw [if_neg hcond, if_neg hcond]

/-- C9: `markConversationRead` is idempotent: invoking it twice in
succession leaves the direct-message store in the same state as invoking it
once; and each call rewrites the message at every position by exactly the
per-message rule "set `read := true` when the message is from `otherUser`
to the caller and unread, otherwise leave it unchanged". -/
theorem c9_mark_conversation_read_idempotent (caller otherUser : Principal) (s : DMState) :
    markConversationRead caller otherUser (markConversationRead caller otherUser s) =
      markConversationRead caller otherUser s ∧
    (∀ (i : Nat) (m : DirectMessage), s.directMessages[i]? = some m →
      (markConversationRead caller otherUser s).directMessages[i]? =
        some (markRead1 caller otherUser m)) := by
  constructor
  · unfold markConversationRead
    congr 1
    rw [List.map_map]
    refine List.map_congr_left ?_
    intro m hm
    simpa using markRead1_idem caller otherUser m
  · intro i m hm
    unfold markConversationRead
    simp [List.getElem?_map, hm]

/-- Witness for C9 at the concrete one-message state `c9state`. -/
theorem c9_witness :
    (markConversationRead 0 1 (markConversationRead 0 1 c9state) =
      markConversationRead 0 1 c9state) ∧
    (markConversationRead 0 1 c9state).directMessages[0]? =
      some (markRead1 0 1 c9msg) := by
  have h := c9_mark_conversation_read_idempotent 0 1 c9state
  exact ⟨h.1, h.2 0 c9msg rfl⟩

/-! ### C3 and C4: group membership removal -/

/-- C3 counterexample: from the reachable state `gSolo` (principal 0 created
group 0 and is its sole member), `removeGroupMember(0, 0)` invoked by the
creator SUCCEEDS and leaves the stored group with an empty member list,
refuting both "every stored group has at least one member" and
"`removeGroupMember` applied to the sole remaining member fails". -/
theorem c3_counterexample :
    (gSolo.groups 0).map Group.memberIds = some [0] ∧
    (removeGroupMember 0 0 0 gSolo).isSome = true ∧
    ((removeGroupMember 0 0 0 gSolo).bind
        (fun s2 => (s2.groups 0).map Group.memberIds)) = some [] := by
  exact ⟨rfl, rfl, rfl⟩

/-- C3 amended: `createGroup` stores a group whose member list is the
singleton `[caller]` (so groups start non-empty), but `removeGroupMember`
performs no membership or non-emptiness check: whenever the group exists
and the caller is its creator, removal succeeds and filters the member out
of the list — in particular, the creator removing themself from a
sole-member group leaves the group with an empty member list. -/
theorem c3_amended_group_emptiness (caller : Principal) (name : String) (now : Int)
    (s : GState) (gid : Nat) (g : Group)
    (hg : s.groups gid = some g) (hsole : g.memberIds = [g.creatorId]) :
    ((createGroup caller name now s).1.groups s.nextGroupId).map Group.memberIds =
      some [caller] ∧
    (removeGroupMember g.creatorId gid g.creatorId s).isSome = true ∧
    ((removeGroupMember g.creatorId gid g.creatorId s).bind
        (fun s2 => (s2.groups gid).map Group.memberIds)) = some [] := by
  refine ⟨?_, ?_, ?_⟩
  · simp [createGroup]
  · simp [removeGroupMember, hg]
  · simp [removeGroupMember, hg, hsole]

/-- Witness for the amended C3 at the concrete sole-member state `gSolo`. -/
theorem c3_witness :
    (gSolo.groups 0 = some gSoloGroup ∧
      gSoloGroup.memberIds = [gSoloGroup.creatorId]) ∧
    (((createGroup 5 "k" 2 gSolo).1.groups gSolo.nextGroupId).map Group.memberIds =
      some [5] ∧
    (removeGroupMember gSoloGroup.creatorId 0 gSoloGroup.creatorId gSolo).isSome = true ∧
    ((removeGroupMember gSoloGroup.creatorId 0 gSoloGroup.creatorId gSolo).bind
        (fun s2 => (s2.groups 0).map Group.memberIds)) = some []) := by
  have h := c3_amended_group_emptiness 5 "k" 2 gSolo 0 gSoloGroup rfl rfl
  exact ⟨⟨rfl, rfl⟩, h⟩

/-- C4 counterexample: in the reachable state `gPair` (group 0 created by 0,
members [0, 1]): (a) member 1 removing themself FAILS although the claim
says a member removing themself succeeds; (b) the creator removing the
non-member 5 SUCCEEDS as a no-op although the claim says removing a
non-member fails. -/
theorem c4_counterexample :
    (gPair.groups 0).map Group.memberIds = some [0, 1] ∧
    removeGroupMember 1 0 1 gPair = none ∧
    (removeGroupMember 0 0 5 gPair).isSome = true ∧
    ((removeGroupMember 0 0 5 gPair).bind
        (fun s2 => (s2.groups 0).map Group.memberIds)) = some [0, 1] := by
  exact ⟨rfl, rfl, rfl, rfl⟩

/-- C4 amended: `removeGroupMember(groupId, member)` succeeds exactly when
the group exists and the caller is the group's creator; the member being in
the member list is NOT required (removing a non-member succeeds as a no-op)
and self-removal by a non-creator member fails.  On success the stored
member list becomes the old list with every occurrence of `member` filtered
out; on failure the call traps, leaving the store unchanged. -/
theorem c4_remove_member_success_iff (caller : Principal) (groupId : Nat)
    (memberId : Principal) (s : GState) :
    ((removeGroupMember caller groupId memberId s).isSome = true ↔
      ∃ g, s.groups groupId = some g ∧ g.creatorId = caller) ∧
    (∀ g, s.groups groupId = some g → g.creatorId = caller →
      ((removeGroupMember caller groupId memberId s).bind
          (fun s2 => (s2.groups groupId).map Group.memberIds)) =
        some (g.memberIds.filter (fun m => decide (m ≠ memberId)))) := by
  constructor
  · cases hg : s.groups groupId with
    | none => simp [removeGroupMember, hg]
    | some g =>
      by_cases hc : g.creatorId = caller
      · simp [removeGroupMember, hg, hc]
      · simp [removeGroupMember, hg, hc]
  · intro g hg hc
    simp [removeGroupMember, hg, hc]

/-- Witness for the amended C4 at the concrete state `gPair`. -/
theorem c4_witness :
    (gPair.groups 0 = some gPairGroup ∧ gPairGroup.creatorId = 0) ∧
    ((removeGroupMember 0 0 1 gPair).isSome = true ↔
      ∃ g, gPair.groups 0 = some g ∧ g.creatorId = 0) ∧
    ((removeGroupMember 0 0 1 gPair).bind
        (fun s2 => (s2.groups 0).map Group.memberIds)) =
      some (gPairGroup.memberIds.filter (fun m => decide (m ≠ 1))) := by
  have h := c4_remove_member_success_iff 0 0 1 gPair
  exact ⟨⟨rfl, rfl⟩, h.1, h.2 gPairGroup rfl rfl⟩

/-! ### C5, C8, C10: call-signaling sessions -/

/-- C5 counterexample: principal 2 is neither participant of the session
stored under "c1" (caller 0, callee 1), yet its `storeCallOffer` call on
that same call id succeeds and overwrites the whole session — refuting the
claim that every non-participant write to a session via `storeCallOffer`
fails and leaves the session unchanged. -/
theorem c5_counterexample :
    (vcSession "c1").map VideoCall.offer =
      some { sdp := "offerA", caller := 0, callee := 1 } ∧
    (2 : Principal) ≠ 0 ∧ (2 : Principal) ≠ 1 ∧
    ((storeCallOffer 2 "c1" "offerX" 3 vcSession) "c1").map VideoCall.offer =
      some { sdp := "offerX", caller := 2, callee := 3 } := by
  exact ⟨rfl, by decide, by decide, rfl⟩

/-- C5 amended: call-session confinement holds for the six operations that
consult the stored session — `getCallOffer`, `getCallAnswer`,
`storeCallAnswer`, `addICECandidate`, `getICECandidates` and `endCall` all
trap for any caller other than the stored offer's caller and callee,
leaving the session unchanged — but NOT for `storeCallOffer`, which is
unguarded: invoked by any authenticated user on an existing call id it
unconditionally replaces the session. -/
theorem c5_participant_confinement (s : VCState) (callId : String) (call : VideoCall)
    (p : Principal) (sdp cand : String) (q : Principal)
    (hcall : s callId = some call)
    (hpc : p ≠ call.offer.caller) (hpe : p ≠ call.offer.callee) :
    getCallOffer p callId s = none ∧
    getCallAnswer p callId s = none ∧
    storeCallAnswer p callId sdp s = none ∧
    addICECandidate p callId cand s = none ∧
    getICECandidates p callId q s = none ∧
    endCall p callId s = none ∧
    (storeCallOffer p callId sdp q s) callId =
      some { offer := { sdp := sdp, caller := p, callee := q },
             answer := none, candidates := [] } := by
  have h1 : call.offer.caller ≠ p := Ne.symm hpc
  have h2 : call.offer.callee ≠ p := Ne.symm hpe
  refine ⟨?_, ?_, ?_, ?_, ?_, ?_, ?_⟩
  · simp [getCallOffer, hcall, h1, h2]
  · simp [getCallAnswer, hcall, h1, h2]
  · simp [storeCallAnswer, hcall, h2]
  · simp [addICECandidate, hcall, h1, h2]
  · simp [getICECandidates, hcall, h1, h2]
  · simp [endCall, hcall, h1, h2]
  · simp [storeCallOffer]

/-- Witness for the amended C5: principal 2 against the session `vcCall1`
stored under "c1". -/
theorem c5_witness :
    (vcSession "c1" = some vcCall1 ∧ (2 : Principal) ≠ vcCall1.offer.caller ∧
      (2 : Principal) ≠ vcCall1.offer.callee) ∧
    (getCallOffer 2 "c1" vcSession = none ∧
    getCallAnswer 2 "c1" vcSession = none ∧
    storeCallAnswer 2 "c1" "x" vcSession = none ∧
    addICECandidate 2 "c1" "y" vcSession = none ∧
    getICECandidates 2 "c1" 0 vcSession = none ∧
    endCall 2 "c1" vcSession = none ∧
    (storeCallOffer 2 "c1" "x" 0 vcSession) "c1" =
      some { offer := { sdp := "x", caller := 2, callee := 0 },
             answer := none, candidates := [] }) := by
  have h := c5_participant_confinement vcSession "c1" vcCall1 2 "x" "y" 0 rfl
    (by decide) (by decide)
  exact ⟨⟨rfl, by decide, by decide⟩, h⟩

/-- C8: `storeCallAnswer(callId, sdp)` succeeds only when the caller equals
the stored session's `offer.callee` — trapping on a missing session or any
other caller — and on success it writes the answer
`{sdp, callee := caller, caller := offer.caller}` while leaving the
session's offer and accumulated ICE-candidate list unchanged. -/
theorem c8_store_call_answer (s : VCState) (caller : Principal) (callId sdp : String) :
    (s callId = none → storeCallAnswer caller callId sdp s = none) ∧
    (∀ call, s callId = some call → call.offer.callee ≠ caller →
      storeCallAnswer caller callId sdp s = none) ∧
    (∀ call, s callId = some call → call.offer.callee = caller →
      ((storeCallAnswer caller callId sdp s).bind (fun s2 => s2 callId)) =
        some { offer := call.offer,
               answer :=
                 some { sdp := sdp, callee := caller, caller := call.offer.caller },
               candidates := call.candidates }) := by
  refine ⟨?_, ?_, ?_⟩
  · intro h
    simp [storeCallAnswer, h]
  · intro call hc hne
    simp [storeCallAnswer, hc, hne]
  · intro call hc he
    simp [storeCallAnswer, hc, he]

/-- Witness for C8: the callee (principal 1) answers the session stored
under "c1". -/
theorem c8_witness :
    (vcSession "c1" = some vcCall1 ∧ vcCall1.offer.callee = 1) ∧
    ((storeCallAnswer 1 "c1" "ansB" vcSession).bind (fun s2 => s2 "c1")) =
      some { offer := vcCall1.offer,
             answer := some { sdp := "ansB", callee := 1, caller := vcCall1.offer.caller },
             candidates := vcCall1.candidates } := by
  have h := c8_store_call_answer vcSession 1 "c1" "ansB"
  exact ⟨⟨rfl, rfl⟩, h.2.2 vcCall1 rfl rfl⟩

/-- C10: invoked with a call id for which no session exists,
`getICECandidates` returns the empty list (success), while `addICECandidate`
and `endCall` on the same absent call id trap with a not-found error. -/
theorem c10_missing_call_session (caller forPrincipal : Principal)
    (callId cand : String) (s : VCState) (h : s callId = none) :
    getICECandidates caller callId forPrincipal s = some [] ∧
    addICECandidate caller callId cand s = none ∧
    endCall caller callId s = none := by
  refine ⟨?_, ?_, ?_⟩ <;> simp [getICECandidates, addICECandidate, endCall, h]

/-- Witness for C10 at the empty call store and call id "nope". -/
theorem c10_witness :
    vcInit "nope" = none ∧
    (getICECandidates 0 "nope" 1 vcInit = some [] ∧
     addICECandidate 0 "nope" "y" vcInit = none ∧
     endCall 0 "nope" vcInit = none) :=
  ⟨rfl, c10_missing_call_session 0 1 "nope" "y" vcInit rfl⟩

end SocialConnect
